import Mathlib

/-!
Shallow embedding of `src/server.js` (a Slack webhook bot that scrapes a
knowledge base).  JavaScript strings are modelled as Lean `String`s, or as
their `.data` character lists where character arithmetic matters; the JS
numbers this code uses are modelled as `Int`/`Nat`; the external effects
(the HMAC routine, network fetches, the HTML parser, the clock) are explicit
function parameters.
-/

/-- Character-list model of JavaScript `String.prototype.includes`:
`jsIncludes hay needle` is `true` exactly when `needle` occurs contiguously
inside `hay`. -/
def jsIncludes (hay needle : List Char) : Bool :=
  hay.tails.any (fun t => needle.isPrefixOf t)

/-- Model of JavaScript `str.split(sep)` for a one-character separator: every
occurrence of the separator closes the current field, and empty fields are
kept, so the result always has one more entry than there are separators. -/
def splitOnChar (sep : Char) : List Char → List (List Char)
  | [] => [[]]
  | c :: rest =>
    if c = sep then [] :: splitOnChar sep rest
    else
      match splitOnChar sep rest with
      | [] => [[c]]
      | h :: t => (c :: h) :: t

/-- Model of JavaScript `String.prototype.trim` on character lists (the
ASCII-whitespace fragment relevant here): leading and trailing whitespace
characters are removed. -/
def jsTrim (s : List Char) : List Char :=
  ((s.dropWhile Char.isWhitespace).reverse.dropWhile Char.isWhitespace).reverse

/-- Model of JavaScript `String.prototype.indexOf`: the least index at which
`needle` starts inside `hay`, or `none` where the JS code receives `-1`. -/
def jsIndexOf (needle : List Char) : List Char → Option Nat
  | [] => if needle.isPrefixOf ([] : List Char) then some 0 else none
  | c :: t =>
    if needle.isPrefixOf (c :: t) then some 0
    else (jsIndexOf needle t).map (· + 1)

/-- Value of an ASCII hexadecimal digit, `none` for any other character. -/
def hexDigitVal? (c : Char) : Option Nat :=
  if '0' ≤ c ∧ c ≤ '9' then some (c.toNat - '0'.toNat)
  else if 'a' ≤ c ∧ c ≤ 'f' then some (c.toNat - 'a'.toNat + 10)
  else if 'A' ≤ c ∧ c ≤ 'F' then some (c.toNat - 'A'.toNat + 10)
  else none

/-- Percent-decoding as performed by `URLSearchParams` on the single-byte,
ASCII escapes that form bodies here use: `+` becomes a space and `%XX` with
two hexadecimal digits becomes the character with code `XX`; malformed
escapes are kept verbatim. -/
def percentDecode : List Char → List Char
  | [] => []
  | '%' :: a :: b :: rest =>
    match hexDigitVal? a, hexDigitVal? b with
    | some ha, some hb => Char.ofNat (16 * ha + hb) :: percentDecode rest
    | _, _ => '%' :: percentDecode (a :: b :: rest)
  | '+' :: rest => ' ' :: percentDecode rest
  | c :: rest => c :: percentDecode rest

/-- Key/value split of one form field at its first `=`, the way
`URLSearchParams` does it; a field without `=` gets an empty value. -/
def splitFirstEq : List Char → List Char × List Char
  | [] => ([], [])
  | '=' :: rest => ([], rest)
  | c :: rest =>
    let kv := splitFirstEq rest
    (c :: kv.1, kv.2)

/-- Model of `Object.fromEntries(new URLSearchParams(rawBody))` at the level
the claims use it: the key/value pairs obtained by splitting the body on `&`
(dropping empty segments) and each segment at its first `=`, with `+` and
`%XX` decoded.  `Object.fromEntries` keeps the last value of a repeated key;
no claim inspects the parsed fields, so the pair sequence itself is kept. -/
def parseUrlEncoded (body : String) : List (String × String) :=
  ((splitOnChar '&' body.data).filter (fun seg => !seg.isEmpty)).map fun seg =>
    let kv := splitFirstEq seg
    (String.mk (percentDecode kv.1), String.mk (percentDecode kv.2))

/-- Integer value of a list of decimal digits. -/
def decimalVal (l : List Char) : Int :=
  l.foldl (fun n c => n * 10 + ((c.toNat : Int) - 48)) 0

/-- Model of JavaScript number coercion (`Number(s)`, performed by
`currentTime - timestamp` on the timestamp header) on the decimal-integer
strings that occur here: `none` stands for `NaN`, under which every `>`
comparison is false, so a non-numeric timestamp passes the freshness check. -/
def jsNumber? (s : String) : Option Int :=
  match s.data with
  | '-' :: rest =>
    if rest.all Char.isDigit && !rest.isEmpty then some (-(decimalVal rest)) else none
  | l => if l.all Char.isDigit && !l.isEmpty then some (decimalVal l) else none

/-- Outcome of the `verifySlackSignature` Express middleware.  `success`
stands for calling `next()`; the three 401 responses are split by their
cause; `exception` stands for an error thrown out of the middleware
(`crypto.timingSafeEqual` throws when the two buffers have different byte
lengths, which Express turns into a 500 response, not a 401). -/
inductive AuthOutcome where
  | missingCredentials
  | staleRequest
  | invalidSignature
  | success
  | exception
deriving DecidableEq

/-- Inbound request as the middleware sees it: the two Slack headers (an
absent header is `none`) and the raw request body captured by
`express.raw`. -/
structure SlackRequest where
  signatureHeader : Option String
  timestampHeader : Option String
  rawBody : String

/-- JavaScript falsiness of a possibly-absent header value: `undefined` and
the empty string are falsy. -/
def jsFalsyHeader : Option String → Bool
  | none => true
  | some s => s == ""

/-- Model of `verifySlackSignature` (src/server.js lines 14-50).  The
external `crypto.createHmac('sha256', secret).update(m).digest('hex')` is the
parameter `hmacSha256Hex secret m`; `currentTime` is
`Math.floor(Date.now() / 1000)`.  The second component records what
`req.body` was replaced with on line 31: it is `some` exactly on the runs
that pass the header-presence and freshness checks, whatever the signature
comparison then does.  `crypto.timingSafeEqual` throws when the UTF-8 byte
lengths of the two signatures differ (`exception`); with equal lengths it is
bytewise equality, which on UTF-8 encodings coincides with string
equality. -/
def verifySlackSignature (hmacSha256Hex : String → String → String)
    (signingSecret : String) (currentTime : Int) (req : SlackRequest) :
    AuthOutcome × Option (List (String × String)) :=
  if jsFalsyHeader req.signatureHeader || jsFalsyHeader req.timestampHeader then
    (.missingCredentials, none)
  else
    let slackSignature := req.signatureHeader.getD ""
    let timestamp := req.timestampHeader.getD ""
    let stale : Bool :=
      match jsNumber? timestamp with
      | some t => decide (300 < (currentTime - t).natAbs)
      | none => false
    if stale then (.staleRequest, none)
    else
      let rawBody := req.rawBody
      let parsed := parseUrlEncoded rawBody
      let sigBasestring := "v0:" ++ timestamp ++ ":" ++ rawBody
      let mySignature := "v0=" ++ hmacSha256Hex signingSecret sigBasestring
      if mySignature.utf8ByteSize ≠ slackSignature.utf8ByteSize then
        (.exception, some parsed)
      else if mySignature == slackSignature then
        (.success, some parsed)
      else
        (.invalidSignature, some parsed)

/-- Article reference discovered on the landing page. -/
structure Article where
  title : String
  url : String
deriving DecidableEq

/-- One search hit: the article fields spread together with its snippet. -/
structure SearchResult where
  title : String
  url : String
  snippet : String
deriving DecidableEq

/-- Anchor element of the parsed landing page: its visible text and its
`href` attribute (an absent attribute is `none`).  The cheerio selector and
loop of src/server.js lines 108-117 read only these two pieces. -/
structure Anchor where
  text : String
  href : Option String
deriving DecidableEq

/-- Origin against which the code resolves non-absolute article links. -/
def siteOrigin : String := "https://learn.sessionboard.com"

/-- Character-list model of JavaScript `String.prototype.startsWith`. -/
def jsStartsWith (s pre : String) : Bool :=
  pre.data.isPrefixOf s.data

/-- Model of `contentMatches` (src/server.js lines 169-172): the full query
is a substring of the content, or some field of `query.split(' ')` is. -/
def contentMatches (content query : String) : Bool :=
  jsIncludes content.data query.data ||
    (splitOnChar ' ' query.data).any (fun w => jsIncludes content.data w)

/-- Model of `extractSnippet` (src/server.js lines 174-181): empty when the
full query does not occur in the content; otherwise the window from 100
characters before the first occurrence to 200 characters after its start,
clamped to the content (JS `Math.max(0, index - 100)` is truncated
subtraction on `Nat`), trimmed, with `"..."` appended. -/
def extractSnippet (content query : String) : String :=
  match jsIndexOf query.data content.data with
  | none => ""
  | some index =>
    let start := index - 100
    let stop := min content.data.length (index + 200)
    String.mk (jsTrim ((content.data.take stop).drop start)) ++ "..."

/-- Model of the discovery loop (src/server.js lines 108-117): the selector
`a[href*="/knowledge-base/"]` keeps the anchors whose `href` attribute
contains `/knowledge-base/`; each kept anchor contributes an article when its
trimmed text is truthy (non-empty), its `href` is truthy, and the trimmed
text is longer than 3 characters; an `href` not starting with `http` is
prefixed with the site origin. -/
def discoverArticles (anchors : List Anchor) : List Article :=
  (anchors.filter fun a =>
      match a.href with
      | some h => jsIncludes h.data "/knowledge-base/".data
      | none => false).filterMap fun a =>
    match a.href with
    | none => none
    | some href =>
      let title := String.mk (jsTrim a.text.data)
      if title ≠ "" ∧ href ≠ "" ∧ 3 < title.length then
        some ⟨title, if jsStartsWith href "http" then href else siteOrigin ++ href⟩
      else none

/-- Association-list model of the `Map` serving as `this.cache`; `cacheGet`
covers `cache.has`/`cache.get` and `cachePut` covers `cache.set` (the newest
binding of a key is the one found). -/
def cacheGet (c : List (String × String)) (u : String) : Option String :=
  match c.find? (fun p => p.1 == u) with
  | some p => some p.2
  | none => none

/-- Insertion into the cache model; see `cacheGet`. -/
def cachePut (c : List (String × String)) (u v : String) :
    List (String × String) :=
  (u, v) :: c

/-- Result of one run of the article loop: the accumulated results, the cache
after the run, and — observable instrumentation for the claims about network
traffic — the URLs passed to `axios.get`, in order. -/
structure CrawlState where
  results : List SearchResult
  cache : List (String × String)
  fetched : List String
deriving DecidableEq

/-- Model of the `for` loop of `searchArticles` (src/server.js lines
133-164).  `fetchLower url` stands for `axios.get(url)` followed by
`$('body').text().toLowerCase()`; `none` stands for a thrown fetch error, in
which case the `catch` logs and the loop continues with the next article,
the cache unchanged.  A successful fetch is recorded in the cache before
matching.  The 500 ms politeness delay changes no returned data and is not
modelled. -/
def searchLoop (fetchLower : String → Option String) (queryLower : String) :
    List (String × String) → List Article → CrawlState
  | cache, [] => ⟨[], cache, []⟩
  | cache, a :: rest =>
    match cacheGet cache a.url with
    | some content =>
      let s := searchLoop fetchLower queryLower cache rest
      { s with
        results :=
          if contentMatches content queryLower then
            ⟨a.title, a.url, extractSnippet content queryLower⟩ :: s.results
          else s.results }
    | none =>
      match fetchLower a.url with
      | none =>
        let s := searchLoop fetchLower queryLower cache rest
        { s with fetched := a.url :: s.fetched }
      | some content =>
        let s := searchLoop fetchLower queryLower (cachePut cache a.url content) rest
        { s with
          results :=
            if contentMatches content queryLower then
              ⟨a.title, a.url, extractSnippet content queryLower⟩ :: s.results
            else s.results,
          fetched := a.url :: s.fetched }

/-- Model of `searchArticles` (src/server.js lines 129-167): lowercase the
query (`query.toLowerCase()`, modelled per character), loop over the first 10
articles, return the first 5 results. -/
def searchArticles (fetchLower : String → Option String)
    (cache : List (String × String)) (articles : List Article)
    (query : String) : CrawlState :=
  let queryLower := String.mk (query.data.map Char.toLower)
  let s := searchLoop fetchLower queryLower cache (articles.take 10)
  { s with results := s.results.take 5 }

/-- Model of `searchKnowledgeBase` (src/server.js lines 99-127).  `landing`
is the outcome of fetching and parsing the landing page: `none` when
`axios.get(this.baseUrl)` throws, in which case the surrounding `catch`
returns `[]`.  Otherwise the discovered articles are searched. -/
def searchKnowledgeBase (landing : Option (List Anchor))
    (fetchLower : String → Option String) (cache : List (String × String))
    (query : String) : CrawlState :=
  match landing with
  | none => ⟨[], cache, []⟩
  | some anchors => searchArticles fetchLower cache (discoverArticles anchors) query

/-- Discovery contract in the spec's words, for comparison with
`discoverArticles`: keep exactly the anchors whose `href` contains the
knowledge-base path segment and whose trimmed visible text is longer than 3
characters; an `href` that does not start with `http` is resolved against the
site origin. -/
def specDiscoverArticles (anchors : List Anchor) : List Article :=
  anchors.filterMap fun a =>
    match a.href with
    | none => none
    | some href =>
      if "/knowledge-base/".data <:+: href.data ∧
          3 < (String.mk (jsTrim a.text.data)).length then
        some ⟨String.mk (jsTrim a.text.data),
              if jsStartsWith href "http" then href else siteOrigin ++ href⟩
      else none

theorem jsIncludes_iff (hay needle : List Char) :
    jsIncludes hay needle = true ↔ needle <:+: hay := by
  unfold jsIncludes
  rw [List.any_eq_true]
  constructor
  · rintro ⟨t, ht, hp⟩
    rw [List.mem_tails t hay] at ht
    exact List.infix_iff_prefix_suffix.mpr
      ⟨t, List.isPrefixOf_iff_prefix.mp hp, ht⟩
  · intro h
    rcases List.infix_iff_prefix_suffix.mp h with ⟨t, hp, hs⟩
    exact ⟨t, (List.mem_tails t hay).mpr hs, List.isPrefixOf_iff_prefix.mpr hp⟩

theorem jsIncludes_nil (hay : List Char) : jsIncludes hay [] = true :=
  (jsIncludes_iff hay []).mpr List.nil_infix

theorem splitOnChar_ne_nil (sep : Char) (m : List Char) : splitOnChar sep m ≠ [] := by
  match m with
  | [] => simp [splitOnChar]
  | c :: rest =>
    simp only [splitOnChar]
    by_cases h : c = sep
    · simp [h]
    · simp only [h, if_false]
      cases hs : splitOnChar sep rest <;> simp

theorem splitOnChar_length (sep : Char) (m : List Char) :
    (splitOnChar sep m).length = m.count sep + 1 := by
  induction m with
  | nil => simp [splitOnChar]
  | cons c rest ih =>
    simp only [splitOnChar]
    by_cases h : c = sep
    · subst h
      simp [List.count_cons, ih]
    · rcases hs : splitOnChar sep rest with _ | ⟨hd, tl⟩
      · exact absurd hs (splitOnChar_ne_nil sep rest)
      · rw [hs] at ih
        simp only [h, if_false, hs]
        simp only [List.length_cons] at ih ⊢
        rw [List.count_cons]
        simp [h, ih]

theorem splitOnChar_cons_self (sep : Char) (rest : List Char) :
    splitOnChar sep (sep :: rest) = [] :: splitOnChar sep rest := by
  simp [splitOnChar]

theorem splitOnChar_cons_ne (sep c : Char) (rest : List Char) (h : ¬ c = sep) :
    splitOnChar sep (c :: rest) =
      match splitOnChar sep rest with
      | [] => [[c]]
      | hd :: tl => (c :: hd) :: tl := by
  simp only [splitOnChar, h, if_false]

theorem splitOnChar_trailing (sep : Char) (l : List Char) :
    ∃ t, splitOnChar sep (l ++ [sep]) = t ++ [[]] := by
  induction l with
  | nil => exact ⟨[[]], by simp [splitOnChar]⟩
  | cons c l ih =>
    rcases ih with ⟨t, ht⟩
    by_cases h : c = sep
    · subst h
      refine ⟨[] :: t, ?_⟩
      rw [List.cons_append, splitOnChar_cons_self, ht, List.cons_append]
    · rcases t with _ | ⟨t₁, t₂⟩
      · exfalso
        have hlen := splitOnChar_length sep (l ++ [sep])
        rw [ht] at hlen
        simp [List.count_append, List.count_cons] at hlen
      · refine ⟨(c :: t₁) :: t₂, ?_⟩
        rw [List.cons_append, splitOnChar_cons_ne sep c _ h, ht]
        rfl

theorem splitOnChar_double (sep : Char) (l r : List Char) :
    [] ∈ (splitOnChar sep (l ++ sep :: sep :: r)).tail := by
  induction l with
  | nil =>
    rw [List.nil_append, splitOnChar_cons_self, splitOnChar_cons_self]
    simp
  | cons c l ih =>
    by_cases h : c = sep
    · subst h
      rw [List.cons_append, splitOnChar_cons_self, List.tail_cons]
      exact List.mem_of_mem_tail ih
    · rcases hs : splitOnChar sep (l ++ sep :: sep :: r) with _ | ⟨hd, tl⟩
      · exact absurd hs (splitOnChar_ne_nil _ _)
      · rw [hs] at ih
        rw [List.cons_append, splitOnChar_cons_ne sep c _ h, hs]
        simpa using ih

theorem splitOnChar_leading (sep : Char) (r : List Char) :
    [] ∈ splitOnChar sep (sep :: r) := by
  simp [splitOnChar]

theorem jsIndexOf_total (needle : List Char) :
    ∀ hay : List Char, needle <:+: hay → ∃ i, jsIndexOf needle hay = some i := by
  intro hay
  induction hay with
  | nil =>
    intro h
    rcases List.infix_iff_prefix_suffix.mp h with ⟨t, hp, hs⟩
    rw [List.suffix_nil.mp hs] at hp
    rw [List.prefix_nil.mp hp]
    exact ⟨0, by simp [jsIndexOf]⟩
  | cons c t ih =>
    intro h
    by_cases hp : needle.isPrefixOf (c :: t) = true
    · exact ⟨0, by simp [jsIndexOf, hp]⟩
    · have hnp : ¬ needle <+: (c :: t) := fun hh =>
        hp ( List.isPrefixOf_iff_prefix.mpr hh)
      have h2 : needle <:+: t := by
        rcases List.infix_cons_iff.mp h with h' | h'
        · exact absurd h' hnp
        · exact h'
      rcases ih h2 with ⟨i, hi⟩
      refine ⟨i + 1, ?_⟩
      simp [jsIndexOf, hp, hi]

theorem jsIndexOf_least (needle : List Char) :
    ∀ (hay : List Char) (i : Nat), jsIndexOf needle hay = some i →
      needle <+: hay.drop i ∧ ∀ j, needle <+: hay.drop j → i ≤ j := by
  intro hay
  induction hay with
  | nil =>
    intro i hi
    simp only [jsIndexOf] at hi
    by_cases hp : needle.isPrefixOf ([] : List Char) = true
    · rw [if_pos hp] at hi
      cases hi
      exact ⟨by simpa using List.isPrefixOf_iff_prefix.mp hp, fun j _ => Nat.zero_le j⟩
    · rw [if_neg hp] at hi
      cases hi
  | cons c t ih =>
    intro i hi
    simp only [jsIndexOf] at hi
    by_cases hp : needle.isPrefixOf (c :: t) = true
    · rw [if_pos hp] at hi
      cases hi
      exact ⟨by simpa using List.isPrefixOf_iff_prefix.mp hp, fun j _ => Nat.zero_le j⟩
    · rw [if_neg hp] at hi
      rcases Option.map_eq_some'.mp hi with ⟨i', hi', rfl⟩
      rcases ih i' hi' with ⟨h1, h2⟩
      constructor
      · simpa using h1
      · intro j hj
        cases j with
        | zero =>
          exfalso
          exact hp ( List.isPrefixOf_iff_prefix.mpr (by simpa using hj))
        | succ j =>
          have := h2 j (by simpa using hj)
          omega

theorem jsIndexOf_eq_none (needle hay : List Char) :
    jsIndexOf needle hay = none ↔ ¬ needle <:+: hay := by
  constructor
  · intro h hinf
    rcases jsIndexOf_total needle hay hinf with ⟨i, hi⟩
    rw [h] at hi
    cases hi
  · intro h
    cases hj : jsIndexOf needle hay with
    | none => rfl
    | some i =>
      exfalso
      rcases jsIndexOf_least needle hay i hj with ⟨h1, _⟩
      exact h (List.infix_iff_prefix_suffix.mpr ⟨hay.drop i, h1, List.drop_suffix i hay⟩)

/-- C5: `contentMatches normalizedText query` returns `true` exactly when the
full query string appears as a substring of the text or some single token of
the query (the fields produced by splitting the query on the space character,
as `query.split(' ')` does) appears as a substring; it returns `false` when
neither holds. -/
theorem C5_matches_iff (content query : String) :
    contentMatches content query = true ↔
      (query.data <:+: content.data ∨
        ∃ w ∈ splitOnChar ' ' query.data, w <:+: content.data) := by
  simp [contentMatches, List.any_eq_true, jsIncludes_iff]

/-- C10: `contentMatches` returns `true` for every content whenever the query
is empty or has a leading space, a trailing space, or two consecutive spaces:
splitting the query on single spaces then yields an empty token, and the
empty string is a substring of every string. -/
theorem C10_empty_token_matches (content query : String)
    (h : query = "" ∨ (∃ r, query.data = ' ' :: r) ∨
         (∃ l, query.data = l ++ [' ']) ∨
         (∃ l r, query.data = l ++ ' ' :: ' ' :: r)) :
    contentMatches content query = true := by
  have hnil : jsIncludes content.data [] = true := jsIncludes_nil content.data
  have hq : ("" : String).data = ([] : List Char) := by decide
  unfold contentMatches
  rcases h with h | ⟨r, hr⟩ | ⟨l, hl⟩ | ⟨l, r, hlr⟩
  · subst h
    rw [hq]
    simp [hnil]
  · rw [hr]
    have hany : (splitOnChar ' ' (' ' :: r)).any (fun w => jsIncludes content.data w) = true :=
      List.any_eq_true.mpr ⟨[], splitOnChar_leading ' ' r, hnil⟩
    simp [hany]
  · rw [hl]
    rcases splitOnChar_trailing ' ' l with ⟨t, ht⟩
    have hmem : ([] : List Char) ∈ splitOnChar ' ' (l ++ [' ']) := by
      rw [ht]
      simp
    have hany : (splitOnChar ' ' (l ++ [' '])).any (fun w => jsIncludes content.data w) = true :=
      List.any_eq_true.mpr ⟨[], hmem, hnil⟩
    simp [hany]
  · rw [hlr]
    have hmem : ([] : List Char) ∈ splitOnChar ' ' (l ++ ' ' :: ' ' :: r) :=
      List.mem_of_mem_tail (splitOnChar_double ' ' l r)
    have hany : (splitOnChar ' ' (l ++ ' ' :: ' ' :: r)).any
        (fun w => jsIncludes content.data w) = true :=
      List.any_eq_true.mpr ⟨[], hmem, hnil⟩
    simp [hany]

/-- Witness for C10 at a concrete input: the query " a" has a leading space,
so it matches the unrelated content "xyz". -/
theorem C10_witness : contentMatches "xyz" " a" = true :=
  C10_empty_token_matches "xyz" " a" (Or.inr (Or.inl ⟨['a'], by decide⟩))

/-- C6: `extractSnippet` returns the empty string when the full query string
does not occur in the content; otherwise, writing `i` for the index of the
first occurrence of the full query, it returns the window of the content from
100 characters before `i` to 200 characters after `i`, clamped to the content
bounds, trimmed, with the ellipsis marker appended.  Consequently a text can
satisfy `contentMatches` via a token yet receive an empty snippet when the
full phrase is absent, as the concrete instance in the last conjunct shows. -/
theorem C6_snippet_window (content query : String) :
    (¬ query.data <:+: content.data → extractSnippet content query = "") ∧
    (query.data <:+: content.data →
      ∃ i, query.data <+: content.data.drop i ∧
        (∀ j, query.data <+: content.data.drop j → i ≤ j) ∧
        extractSnippet content query =
          String.mk (jsTrim ((content.data.take
            (min content.data.length (i + 200))).drop (i - 100))) ++ "...") ∧
    (contentMatches "setup your workspace here" "workspace settings" = true ∧
      extractSnippet "setup your workspace here" "workspace settings" = "") := by
  refine ⟨?_, ?_, by decide, by decide⟩
  · intro h
    unfold extractSnippet
    rw [(jsIndexOf_eq_none query.data content.data).mpr h]
  · intro h
    rcases jsIndexOf_total query.data content.data h with ⟨i, hi⟩
    rcases jsIndexOf_least query.data content.data i hi with ⟨h1, h2⟩
    refine ⟨i, h1, h2, ?_⟩
    unfold extractSnippet
    rw [hi]

/-- Witness for C6 at concrete inputs: a query that does not occur yields the
empty snippet, and a query that does occur yields the trimmed clamped window
with the ellipsis appended. -/
theorem C6_witness :
    extractSnippet "abc" "zz" = "" ∧
    ∃ i, "b".data <+: "abc".data.drop i ∧
      (∀ j, "b".data <+: "abc".data.drop j → i ≤ j) ∧
      extractSnippet "abc" "b" =
        String.mk (jsTrim (("abc".data.take
          (min "abc".data.length (i + 200))).drop (i - 100))) ++ "..." :=
  ⟨(C6_snippet_window "abc" "zz").1 (by decide),
   (C6_snippet_window "abc" "b").2.1 (by decide)⟩



/-- Fusion of a filter into the following filterMap; used to compare the
two-stage discovery loop with the one-pass contract. -/
theorem filterMap_of_filter {α β : Type} (p : α → Bool) (f : α → Option β) :
    ∀ l : List α, (l.filter p).filterMap f =
      l.filterMap (fun a => if p a then f a else none) := by
  intro l
  induction l with
  | nil => rfl
  | cons a l ih =>
    by_cases h : p a = true
    · rw [List.filter_cons, if_pos h, List.filterMap_cons, List.filterMap_cons, if_pos h]
      cases f a <;> simp [ih]
    · rw [List.filter_cons, if_neg h, List.filterMap_cons, if_neg h, ih]


/-- C8: the discovery loop extracts exactly the anchors whose link target
contains the knowledge-base path segment and whose visible link text is
longer than 3 characters after trimming, and resolves every link that does
not start with `http` against the site origin: the source loop coincides
with the contract `specDiscoverArticles`. -/
theorem C8_discover_exact (anchors : List Anchor) :
    discoverArticles anchors = specDiscoverArticles anchors := by
  unfold discoverArticles specDiscoverArticles
  rw [filterMap_of_filter]
  apply List.filterMap_congr
  intro a _
  rcases a with ⟨text, href⟩
  rcases href with _ | href
  · rw [if_neg (fun h => Bool.noConfusion h)]
  · by_cases hkb : jsIncludes href.data "/knowledge-base/".data = true
    · rw [if_pos hkb]
      have hinf : "/knowledge-base/".data <:+: href.data := (jsIncludes_iff _ _).mp hkb
      have hhne : href ≠ "" := by
        intro he
        subst he
        rw [show ("" : String).data = ([] : List Char) from by decide,
          List.infix_nil] at hinf
        exact (by decide : ¬ "/knowledge-base/".data = ([] : List Char)) hinf
      show (if String.mk (jsTrim text.data) ≠ "" ∧ href ≠ "" ∧
              3 < (String.mk (jsTrim text.data)).length then
            some (⟨String.mk (jsTrim text.data),
              if jsStartsWith href "http" then href else siteOrigin ++ href⟩ : Article)
          else none) =
        (if "/knowledge-base/".data <:+: href.data ∧
            3 < (String.mk (jsTrim text.data)).length then
          some (⟨String.mk (jsTrim text.data),
            if jsStartsWith href "http" then href else siteOrigin ++ href⟩ : Article)
        else none)
      by_cases hlen : 3 < (String.mk (jsTrim text.data)).length
      · have htne : String.mk (jsTrim text.data) ≠ "" := by
          intro he
          rw [he] at hlen
          exact absurd hlen (by decide)
        rw [if_pos (And.intro htne (And.intro hhne hlen))]
        rw [if_pos (And.intro hinf hlen)]
      · rw [if_neg (fun hc => hlen hc.2.2), if_neg (fun hc => hlen hc.2)]
    · rw [if_neg hkb]
      show none = (if "/knowledge-base/".data <:+: href.data ∧
          3 < (String.mk (jsTrim text.data)).length then
        some (⟨String.mk (jsTrim text.data),
          if jsStartsWith href "http" then href else siteOrigin ++ href⟩ : Article)
      else none)
      rw [if_neg (fun hc => hkb ((jsIncludes_iff _ _).mpr hc.1))]

theorem searchLoop_sublists (f : String → Option String) (q : String) :
    ∀ (articles : List Article) (cache : List (String × String)),
      List.Sublist
        ((searchLoop f q cache articles).results.map (fun r => (r.title, r.url)))
        (articles.map (fun a => (a.title, a.url))) ∧
      List.Sublist (searchLoop f q cache articles).fetched
        (articles.map (fun a => a.url)) := by
  intro articles
  induction articles with
  | nil =>
    intro cache
    simp [searchLoop]
  | cons a rest ih =>
    intro cache
    rcases hc : cacheGet cache a.url with _ | content
    · rcases hf : f a.url with _ | content
      · simp only [searchLoop, hc, hf, List.map_cons]
        exact ⟨((ih cache).1).cons _, ((ih cache).2).cons₂ _⟩
      · simp only [searchLoop, hc, hf, List.map_cons]
        by_cases hm : contentMatches content q = true
        · simp only [hm, if_true, List.map_cons]
          exact ⟨((ih (cachePut cache a.url content)).1).cons₂ _,
            ((ih (cachePut cache a.url content)).2).cons₂ _⟩
        · simp only [hm, if_false]
          exact ⟨((ih (cachePut cache a.url content)).1).cons _,
            ((ih (cachePut cache a.url content)).2).cons₂ _⟩
    · simp only [searchLoop, hc]
      by_cases hm : contentMatches content q = true
      · simp only [hm, if_true, List.map_cons]
        exact ⟨((ih cache).1).cons₂ _, ((ih cache).2).cons _⟩
      · simp only [hm, if_false, List.map_cons]
        exact ⟨((ih cache).1).cons _, ((ih cache).2).cons _⟩

/-- C4: for every query and discovered article sequence, the search returns
at most 5 results; the results, projected to their article fields, form a
subsequence of the first 10 discovered articles in discovery order (no
reordering or ranking beyond the binary match); and every URL the loop
fetches comes from the first 10 discovered articles, in order. -/
theorem C4_search_caps (f : String → Option String) (cache : List (String × String))
    (articles : List Article) (query : String) :
    (searchArticles f cache articles query).results.length ≤ 5 ∧
    List.Sublist
      ((searchArticles f cache articles query).results.map (fun r => (r.title, r.url)))
      ((articles.take 10).map (fun a => (a.title, a.url))) ∧
    List.Sublist (searchArticles f cache articles query).fetched
      ((articles.take 10).map (fun a => a.url)) := by
  have h := searchLoop_sublists f (String.mk (query.data.map Char.toLower))
    (articles.take 10) cache
  unfold searchArticles
  refine ⟨?_, ?_, ?_⟩
  · exact List.length_take_le 5 _
  · exact ((List.take_sublist 5 _).map _).trans h.1
  · exact h.2

/-- C7: when the landing-page fetch fails, the search returns an empty
result sequence (and, being a total function of its inputs, raises nothing);
and when one article's fetch fails on a cache miss, that article is skipped
— the loop produces the same results and final cache as on the remaining
articles, recording only the failed fetch attempt. -/
theorem C7_failure_recovery (f : String → Option String)
    (cache : List (String × String)) (query q : String) (a : Article)
    (rest : List Article) (hmiss : cacheGet cache a.url = none)
    (hfail : f a.url = none) :
    searchKnowledgeBase none f cache query = ⟨[], cache, []⟩ ∧
    (searchLoop f q cache (a :: rest)).results = (searchLoop f q cache rest).results ∧
    (searchLoop f q cache (a :: rest)).cache = (searchLoop f q cache rest).cache ∧
    (searchLoop f q cache (a :: rest)).fetched =
      a.url :: (searchLoop f q cache rest).fetched := by
  refine ⟨rfl, ?_, ?_, ?_⟩ <;> simp [searchLoop, hmiss, hfail]

/-- Witness for C7 at concrete inputs: a failing landing fetch yields the
empty crawl state, and a failing article fetch leaves the results equal to
those of the remaining (empty) article list. -/
theorem C7_witness :
    searchKnowledgeBase none (fun _ => none) [] "q" = ⟨[], [], []⟩ ∧
    (searchLoop (fun _ => none) "q" [] [⟨"t", "u"⟩]).results =
      (searchLoop (fun _ => none) "q" [] []).results :=
  ⟨(C7_failure_recovery (fun _ => none) [] "q" "q" ⟨"t", "u"⟩ [] rfl rfl).1,
   (C7_failure_recovery (fun _ => none) [] "q" "q" ⟨"t", "u"⟩ [] rfl rfl).2.1⟩

theorem cacheGet_cachePut (c : List (String × String)) (u u' v : String) :
    cacheGet (cachePut c u v) u' = if u = u' then some v else cacheGet c u' := by
  by_cases h : u = u'
  · subst h
    simp [cacheGet, cachePut, List.find?_cons_of_pos]
  · rw [if_neg h]
    unfold cacheGet cachePut
    rw [List.find?_cons_of_neg _ (by simp [h])]

theorem searchLoop_count_zero (f : String → Option String) (q w : String) :
    ∀ (articles : List Article) (cache : List (String × String)),
      cacheGet cache w ≠ none →
      ((searchLoop f q cache articles).fetched.count w) = 0 := by
  intro articles
  induction articles with
  | nil =>
    intro cache _
    simp [searchLoop]
  | cons a rest ih =>
    intro cache h
    rcases hc : cacheGet cache a.url with _ | content
    · have hne : ¬ (a.url = w) := fun he => h (he ▸ hc)
      rcases hf : f a.url with _ | content
      · simp only [searchLoop, hc, hf]
        rw [List.count_cons]
        simp [ih cache h, hne]
      · simp only [searchLoop, hc, hf]
        have hc' : cacheGet (cachePut cache a.url content) w ≠ none := by
          rw [cacheGet_cachePut]
          rw [if_neg hne]
          exact h
        rw [List.count_cons]
        simp [ih _ hc', hne]
    · simp only [searchLoop, hc]
      exact ih cache h

theorem searchLoop_count_le_one (f : String → Option String) (q w v : String)
    (hw : f w = some v) :
    ∀ (articles : List Article) (cache : List (String × String)),
      ((searchLoop f q cache articles).fetched.count w) ≤ 1 := by
  intro articles
  induction articles with
  | nil =>
    intro cache
    simp [searchLoop]
  | cons a rest ih =>
    intro cache
    rcases hc : cacheGet cache a.url with _ | content
    · rcases hf : f a.url with _ | content
      · have hne : ¬ (a.url = w) := fun he => by rw [he, hw] at hf; cases hf
        simp only [searchLoop, hc, hf]
        rw [List.count_cons]
        simp only [beq_iff_eq, hne, if_false]
        simpa using ih cache
      · by_cases he : a.url = w
        · subst he
          simp only [searchLoop, hc, hf]
          rw [List.count_cons]
          have h0 : ((searchLoop f q (cachePut cache a.url content) rest).fetched.count
              a.url) = 0 := by
            apply searchLoop_count_zero
            rw [cacheGet_cachePut, if_pos rfl]
            simp
          simp [h0]
        · simp only [searchLoop, hc, hf]
          rw [List.count_cons]
          simp only [beq_iff_eq, he, if_false]
          simpa using ih (cachePut cache a.url content)
    · simp only [searchLoop, hc]
      exact ih cache

/-- C9 (amended): a `get` after a `put` of a URL returns the stored content,
and within one search a URL whose fetch succeeds is passed to the network at
most once — after the first successful fetch the content is cached and later
encounters are served from the cache.  (A URL whose fetch fails is not
cached, so a failing URL can be fetched again; see the counterexample.) -/
theorem C9_cache_once (c : List (String × String)) (u v w vw : String)
    (f : String → Option String) (q : String) (articles : List Article)
    (cache : List (String × String)) (hw : f w = some vw) :
    cacheGet (cachePut c u v) u = some v ∧
    ((searchLoop f q cache articles).fetched.count w) ≤ 1 := by
  constructor
  · rw [cacheGet_cachePut, if_pos rfl]
  · exact searchLoop_count_le_one f q w vw hw articles cache

/-- Witness for C9 at concrete inputs: the put/get round trip, and a search
that meets the same URL twice with a succeeding fetch issues at most one
fetch for it. -/
theorem C9_witness :
    cacheGet (cachePut [] "u" "c") "u" = some "c" ∧
    ((searchLoop (fun _ => some "c") "q" [] [⟨"t", "u"⟩, ⟨"t", "u"⟩]).fetched.count
      "u") ≤ 1 :=
  C9_cache_once [] "u" "c" "u" "c" (fun _ => some "c") "q"
    [⟨"t", "u"⟩, ⟨"t", "u"⟩] [] rfl

/-- C9 counterexample: a crawl that encounters the same URL twice can issue
two network fetches for it — when the first fetch fails nothing is cached,
so the second encounter fetches again instead of being served from the
cache. -/
theorem C9_counterexample :
    ¬ ((searchArticles (fun _ => none) [] [⟨"t", "u"⟩, ⟨"t", "u"⟩] "q").fetched.count
      "u" ≤ 1) := by
  decide

/-- C1 (amended): for a request carrying both headers with a timestamp in
the freshness window, the middleware succeeds exactly when the provided
signature equals `"v0=" ++ hex(HMAC-SHA256(secret, "v0:" ++ ts ++ ":" ++
body))`; a differing signature of the same UTF-8 byte length fails with
`invalidSignature` (the comparison, byte equality computed without
short-circuiting, is `crypto.timingSafeEqual`); a differing signature whose
byte length differs makes `crypto.timingSafeEqual` throw, so the run ends in
`exception` (a 500), not `invalidSignature`. -/
theorem C1_signature_compare (hmac : String → String → String) (secret : String)
    (now t : Int) (sig ts body : String) (hsig : sig ≠ "") (hts : ts ≠ "")
    (ht : jsNumber? ts = some t) (hfresh : (now - t).natAbs ≤ 300) :
    (sig = "v0=" ++ hmac secret ("v0:" ++ ts ++ ":" ++ body) →
      (verifySlackSignature hmac secret now ⟨some sig, some ts, body⟩).1 =
        AuthOutcome.success) ∧
    (sig ≠ "v0=" ++ hmac secret ("v0:" ++ ts ++ ":" ++ body) →
      sig.utf8ByteSize = ("v0=" ++ hmac secret ("v0:" ++ ts ++ ":" ++ body)).utf8ByteSize →
      (verifySlackSignature hmac secret now ⟨some sig, some ts, body⟩).1 =
        AuthOutcome.invalidSignature) ∧
    (sig.utf8ByteSize ≠ ("v0=" ++ hmac secret ("v0:" ++ ts ++ ":" ++ body)).utf8ByteSize →
      (verifySlackSignature hmac secret now ⟨some sig, some ts, body⟩).1 =
        AuthOutcome.exception) := by
  have hfalsy : (jsFalsyHeader (some sig) || jsFalsyHeader (some ts)) = false := by
    simp [jsFalsyHeader, hsig, hts]
  have hstale : (match jsNumber? ((some ts : Option String).getD "") with
      | some t' => decide (300 < (now - t').natAbs)
      | none => false) = false := by
    simp only [Option.getD_some, ht]
    exact decide_eq_false (Nat.not_lt.mpr hfresh)
  have hred : verifySlackSignature hmac secret now ⟨some sig, some ts, body⟩ =
      (if ("v0=" ++ hmac secret ("v0:" ++ ts ++ ":" ++ body)).utf8ByteSize ≠
          sig.utf8ByteSize then
        (AuthOutcome.exception, some (parseUrlEncoded body))
      else if ("v0=" ++ hmac secret ("v0:" ++ ts ++ ":" ++ body)) == sig then
        (AuthOutcome.success, some (parseUrlEncoded body))
      else (AuthOutcome.invalidSignature, some (parseUrlEncoded body))) := by
    unfold verifySlackSignature
    simp only [hfalsy, Bool.false_eq_true, if_false, Option.getD_some, ht,
      decide_eq_false (Nat.not_lt.mpr hfresh)]
  refine ⟨?_, ?_, ?_⟩
  · intro he
    rw [hred, if_neg (fun hh => hh (congrArg String.utf8ByteSize he.symm)),
      if_pos (beq_iff_eq.mpr he.symm)]
  · intro hne hlen
    rw [hred, if_neg (fun hh => hh hlen.symm),
      if_neg (fun hh => hne (beq_iff_eq.mp hh).symm)]
  · intro hlen
    rw [hred, if_pos (fun hh => hlen hh.symm)]

/-- Witness for C1 at a concrete input: a fresh, correctly signed request
succeeds. -/
theorem C1_witness :
    (verifySlackSignature (fun _ _ => "abc") "s" 100
      ⟨some "v0=abc", some "100", "b"⟩).1 = AuthOutcome.success :=
  (C1_signature_compare (fun _ _ => "abc") "s" 100 100 "v0=abc" "100" "b"
    (by decide) (by decide) (by decide) (by decide)).1 (by decide)

/-- C1 counterexample: both headers present and fresh, and the provided
signature differs from the expected `"v0=" ++ hex` value, yet the outcome is
not `invalidSignature`: the provided signature has a different byte length,
so the constant-time comparison throws. -/
theorem C1_counterexample :
    "v0=short" ≠ "v0=" ++ String.mk (List.replicate 64 'a') ∧
    (verifySlackSignature (fun _ _ => String.mk (List.replicate 64 'a')) "secret" 100
      ⟨some "v0=short", some "100", "body"⟩).1 = AuthOutcome.exception := by
  exact ⟨by decide, by decide⟩

/-- C2 (amended): the body is parsed after the header-presence and freshness
checks but before the signature comparison.  A request rejected for missing
credentials or staleness never has its body parsed; every request that
reaches the signature comparison has its body parsed from the preserved raw
body string — including requests whose signature validation fails.  The HMAC
is computed over the raw body itself (the basestring in
`verifySlackSignature` is built from `rawBody`), not over a re-encoding of
the parsed fields. -/
theorem C2_parse_timing (hmac : String → String → String) (secret : String)
    (now : Int) (req : SlackRequest) :
    (((verifySlackSignature hmac secret now req).1 = AuthOutcome.missingCredentials ∨
      (verifySlackSignature hmac secret now req).1 = AuthOutcome.staleRequest) →
      (verifySlackSignature hmac secret now req).2 = none) ∧
    (((verifySlackSignature hmac secret now req).1 = AuthOutcome.invalidSignature ∨
      (verifySlackSignature hmac secret now req).1 = AuthOutcome.success ∨
      (verifySlackSignature hmac secret now req).1 = AuthOutcome.exception) →
      (verifySlackSignature hmac secret now req).2 =
        some (parseUrlEncoded req.rawBody)) := by
  unfold verifySlackSignature
  dsimp only
  split
  · simp
  · split
    · simp
    · split
      · simp
      · split
        · simp
        · simp

/-- Witness for C2 at a concrete input: a stale request is rejected before
its body is parsed. -/
theorem C2_witness :
    (verifySlackSignature (fun _ _ => "h") "s" 1000 ⟨some "x", some "0", "a=1"⟩).2 =
      none :=
  (C2_parse_timing (fun _ _ => "h") "s" 1000 ⟨some "x", some "0", "a=1"⟩).1
    (Or.inr (by decide))

/-- C2 counterexample: a request whose signature validation fails with
`invalidSignature` (fresh timestamp, both headers present, wrong signature of
the right length) nevertheless has its body parsed into fields. -/
theorem C2_counterexample :
    (verifySlackSignature (fun _ _ => String.mk (List.replicate 64 'a')) "s" 100
      ⟨some ("v0=" ++ String.mk (List.replicate 64 'b')), some "100", "a=1"⟩).1 =
        AuthOutcome.invalidSignature ∧
    (verifySlackSignature (fun _ _ => String.mk (List.replicate 64 'a')) "s" 100
      ⟨some ("v0=" ++ String.mk (List.replicate 64 'b')), some "100", "a=1"⟩).2 =
        some [("a", "1")] := by
  exact ⟨by decide, by decide⟩

/-- C3: with both headers present, a timestamp outside the 300-second window
is rejected as `staleRequest` — an unauthorized response issued before any
parsing of the body (the parsed-fields component stays `none`); and a
request missing the signature header or the timestamp header is rejected as
`missingCredentials`. -/
theorem C3_stale_and_missing (hmac : String → String → String) (secret : String)
    (now t : Int) (sig ts body : String) :
    (sig ≠ "" → ts ≠ "" → jsNumber? ts = some t → 300 < (now - t).natAbs →
      verifySlackSignature hmac secret now ⟨some sig, some ts, body⟩ =
        (AuthOutcome.staleRequest, none)) ∧
    (∀ req : SlackRequest,
      req.signatureHeader = none ∨ req.timestampHeader = none →
      verifySlackSignature hmac secret now req =
        (AuthOutcome.missingCredentials, none)) := by
  constructor
  · intro hsig hts ht hstale
    unfold verifySlackSignature
    have hfalsy : (jsFalsyHeader (some sig) || jsFalsyHeader (some ts)) = false := by
      simp [jsFalsyHeader, hsig, hts]
    simp only [hfalsy, Bool.false_eq_true, if_false, Option.getD_some, ht,
      decide_eq_true_eq, if_pos hstale]
  · intro req hreq
    unfold verifySlackSignature
    rcases hreq with h | h <;> rw [h] <;> simp [jsFalsyHeader]

/-- Witness for C3 at concrete inputs: a 500-second-old timestamp is
rejected as stale with no parsed body, and an absent signature header is
rejected as missing credentials. -/
theorem C3_witness :
    verifySlackSignature (fun _ _ => "h") "s" 500 ⟨some "x", some "0", "b"⟩ =
      (AuthOutcome.staleRequest, none) ∧
    verifySlackSignature (fun _ _ => "h") "s" 500 ⟨none, some "0", "b"⟩ =
      (AuthOutcome.missingCredentials, none) :=
  ⟨(C3_stale_and_missing (fun _ _ => "h") "s" 500 0 "x" "0" "b").1
      (by decide) (by decide) (by decide) (by decide),
   (C3_stale_and_missing (fun _ _ => "h") "s" 500 0 "x" "0" "b").2
      ⟨none, some "0", "b"⟩ (Or.inl rfl)⟩
